import Mathlib

/-!
Verification of the photo-gallery loader in `src/App.js`.

The file embeds the two nontrivial components of the program:

* `shuffleArray` — the Fisher–Yates shuffle helper (App.js lines 8–19),
  with the `Math.random()` draws replaced by an explicit draw family
  `r : Nat → Nat` (in the iteration where the JS `currentIndex` variable
  holds the value `c`, the code computes
  `randomIndex = Math.floor(Math.random() * c)`, modelled as `r c`;
  since `Math.random() < 1`, every real draw satisfies `r c < c`).

* `fetchPhotoBatch` — the batch loader (App.js lines 98–142) acting on the
  component state `photos, shuffledPhotoIds, currentIndex, loading,
  allLoaded, loadingRef`, with the per-document Firestore reads replaced
  by an oracle `f : String → Option PhotoDoc` (`none` models a rejected
  `getDoc` promise, which makes the joined `Promise.all` reject).
-/

namespace PhotoBlog

/-- The JS destructuring swap `[a[i], a[j]] = [a[j], a[i]]` on a list:
exchange the elements at positions `i` and `j`, identity when either index
is out of bounds (the program only ever swaps in bounds). -/
def listSwap (l : List α) (i j : Nat) : List α :=
  match l[i]?, l[j]? with
  | some x, some y => (l.set i y).set j x
  | _, _ => l

/-- The `while (currentIndex !== 0)` loop of `shuffleArray` (App.js 11–17).
In the iteration entered with `currentIndex = c + 1` the code draws
`randomIndex = r (c + 1)`, decrements `currentIndex` to `c`, and swaps the
elements at positions `c` and `randomIndex`. -/
def shuffleLoop (r : Nat → Nat) : Nat → List α → List α
  | 0, l => l
  | c + 1, l => shuffleLoop r c (listSwap l c (r (c + 1)))

/-- `shuffleArray` from App.js lines 8–19: run the loop starting from
`currentIndex = array.length`. -/
def shuffleArray (r : Nat → Nat) (l : List α) : List α :=
  shuffleLoop r l.length l

/-- Modelled from the spec (§4.1): the loop of the specified Fisher–Yates
shuffle, "for index `i` from `length-1` down to `1`, draw `j` uniformly from
`[0, i]` and swap elements at `i` and `j`".  `fisherYatesLoop j i0 l` runs
the body for `i = i0, i0 - 1, …, 1` with draw `j i` at index `i`. -/
def fisherYatesLoop (j : Nat → Nat) : Nat → List α → List α
  | 0, l => l
  | i + 1, l => fisherYatesLoop j i (listSwap l (i + 1) (j (i + 1)))

/-- Modelled from the spec (§4.1): Fisher–Yates as the spec words it,
starting at index `length - 1`. -/
def fisherYatesSpec (j : Nat → Nat) (l : List α) : List α :=
  fisherYatesLoop j (l.length - 1) l

/-- The data fields of one Firestore photo document (spec §6: `getRecord`
returns `{url, alt_description, ...}`). -/
structure PhotoDoc where
  url : String
  alt_description : String
  deriving DecidableEq

/-- A loaded photo record (App.js 119–123): the document id (`d.id`), the
spread document data, and the animation `index` assigned at load time. -/
structure Photo where
  id : String
  url : String
  alt_description : String
  index : Nat
  deriving DecidableEq

/-- `BATCH_SIZE` (App.js line 70): how many photos to load at a time. -/
def BATCH_SIZE : Nat := 12

/-- The state of the `App` component (App.js 73–82): the reactive state
hooks plus the synchronous `loadingRef` lock. -/
structure AppState where
  photos : List Photo
  shuffledPhotoIds : List String
  currentIndex : Nat
  loading : Bool
  allLoaded : Bool
  loadingRef : Bool
  deriving DecidableEq

/-- The state of a fresh session holding the shuffled order `ids`
(App.js 73–82: `useState([])`, `useState(0)`, `useState(false)`,
`useRef(false)`). -/
def initState (ids : List String) : AppState :=
  { photos := [], shuffledPhotoIds := ids, currentIndex := 0,
    loading := false, allLoaded := false, loadingRef := false }

/-- `shuffledPhotoIds.slice(currentIndex, currentIndex + BATCH_SIZE)`
(App.js 107): the candidate id window. -/
def windowOf (s : AppState) : List String :=
  (s.shuffledPhotoIds.drop s.currentIndex).take BATCH_SIZE

/-- `Promise.all` over one `getDoc` per id (App.js 115–116), with per-id
outcomes given by the oracle `f`: rejects (`none`) iff any single fetch
rejects, and otherwise yields the documents in request order, each paired
with its id (`d.id`). -/
def allFetch (f : String → Option PhotoDoc) : List String → Option (List (String × PhotoDoc))
  | [] => some []
  | i :: ids =>
    match f i, allFetch f ids with
    | some d, some rest => some ((i, d) :: rest)
    | _, _ => none

/-- `photoDocs.map((d, i) => ({ id: d.id, ...d.data(), index: currentIndex + i }))`
(App.js 119–123). -/
def mkNewPhotos (docs : List (String × PhotoDoc)) (cursor : Nat) : List Photo :=
  docs.enum.map fun p =>
    { id := p.2.1, url := p.2.2.url, alt_description := p.2.2.alt_description,
      index := cursor + p.1 }

/-- Which control path one `fetchPhotoBatch` call took: rejected by the
guard (`noop`), took the exhaustion branch (`exhausted`), caught a fetch
error (`failed`), or completed the success path (`success`). -/
inductive Outcome
  | noop
  | exhausted
  | failed
  | success
  deriving DecidableEq

/-- The synchronous prefix of `fetchPhotoBatch` (App.js 100–104): the guard
check and the lock acquisition, with no suspension point between them.
`none` means the call returned immediately as a no-op. -/
def tryAcquire (s : AppState) : Option AppState :=
  if s.loadingRef || s.allLoaded then none
  else some { s with loadingRef := true, loading := true }

/-- The `try`/`catch`/`finally` body of `fetchPhotoBatch` (App.js 106–141),
entered with the lock held.  The `finally` block releases the lock and the
loading indicator on every path. -/
def runBody (f : String → Option PhotoDoc) (s : AppState) : AppState × Outcome :=
  if (windowOf s).length = 0 ∧ s.shuffledPhotoIds.length > 0 then
    ({ s with allLoaded := true, loading := false, loadingRef := false },
      Outcome.exhausted)
  else
    match allFetch f (windowOf s) with
    | none => ({ s with loading := false, loadingRef := false }, Outcome.failed)
    | some docs =>
      ({ s with
          photos := s.photos ++
            (mkNewPhotos docs s.currentIndex).filter
              (fun p => !((s.photos.map (fun q => q.id)).contains p.id)),
          currentIndex := s.currentIndex + BATCH_SIZE,
          loading := false, loadingRef := false }, Outcome.success)

/-- One complete `fetchPhotoBatch` call (App.js 98–142), from invocation to
settlement of its promise. -/
def fetchPhotoBatch (f : String → Option PhotoDoc) (s : AppState) : AppState × Outcome :=
  match tryAcquire s with
  | none => (s, Outcome.noop)
  | some s1 => runBody f s1

/-- A sequence of complete `fetchPhotoBatch` calls (the scroll and
auto-fill triggers), the k-th call seeing per-id fetch outcomes given by
the k-th oracle. -/
def runBatches : List (String → Option PhotoDoc) → AppState → AppState
  | [], s => s
  | f :: fs, s => runBatches fs (fetchPhotoBatch f s).1

/-- How many calls of the sequence took the success path. -/
def successCount : List (String → Option PhotoDoc) → AppState → Nat
  | [], _ => 0
  | f :: fs, s =>
    (if (fetchPhotoBatch f s).2 = Outcome.success then 1 else 0) +
      successCount fs (fetchPhotoBatch f s).1

/-- `ceil(n / BATCH_SIZE) * BATCH_SIZE`: the cap the spec states for the
load cursor over an order of `n` identifiers. -/
def cursorCap (n : Nat) : Nat :=
  ((n + BATCH_SIZE - 1) / BATCH_SIZE) * BATCH_SIZE

/-- Moving the element at position `m` to the front while writing `a` into
its old slot permutes `a :: t`. -/
theorem set_front_perm : ∀ (t : List α) (m : Nat) (a y : α),
    t[m]? = some y → (y :: t.set m a).Perm (a :: t)
  | [], _, _, _, h => by simp at h
  | b :: t, 0, a, y, h => by
    simp only [List.getElem?_cons_zero, Option.some.injEq] at h
    subst h
    exact List.Perm.swap a b t
  | b :: t, m + 1, a, y, h => by
    simp only [List.getElem?_cons_succ] at h
    have ih := set_front_perm t m a y h
    show (y :: b :: t.set m a).Perm (a :: b :: t)
    exact (List.Perm.swap b y _).trans
      ((List.Perm.cons b ih).trans (List.Perm.swap a b t))

/-- Writing `y` at position `i` and `x` at position `j`, when `x` and `y`
are the elements currently at `i` and `j`, permutes the list. -/
theorem set_set_perm : ∀ (l : List α) (i j : Nat) (x y : α),
    l[i]? = some x → l[j]? = some y → ((l.set i y).set j x).Perm l
  | [], _, _, _, _, hx, _ => by simp at hx
  | a :: t, 0, 0, x, y, hx, hy => by
    simp only [List.getElem?_cons_zero, Option.some.injEq] at hx hy
    subst hx; subst hy
    exact List.Perm.refl _
  | a :: t, 0, m + 1, x, y, hx, hy => by
    simp only [List.getElem?_cons_zero, Option.some.injEq] at hx
    simp only [List.getElem?_cons_succ] at hy
    subst hx
    exact set_front_perm t m a y hy
  | a :: t, m + 1, 0, x, y, hx, hy => by
    simp only [List.getElem?_cons_zero, Option.some.injEq] at hy
    simp only [List.getElem?_cons_succ] at hx
    subst hy
    exact set_front_perm t m a x hx
  | a :: t, m + 1, k + 1, x, y, hx, hy => by
    simp only [List.getElem?_cons_succ] at hx hy
    exact List.Perm.cons a (set_set_perm t m k x y hx hy)

/-- A swap permutes the list, for arbitrary indices. -/
theorem listSwap_perm (l : List α) (i j : Nat) : (listSwap l i j).Perm l := by
  unfold listSwap
  split
  next x y hx hy => exact set_set_perm l i j x y hx hy
  next => exact List.Perm.refl l

/-- Writing back the element already present leaves the list unchanged. -/
theorem set_getElem?_eq : ∀ (l : List α) (i : Nat) (x : α),
    l[i]? = some x → l.set i x = l
  | [], _, _, h => by simp at h
  | a :: t, 0, x, h => by
    simp only [List.getElem?_cons_zero, Option.some.injEq] at h
    subst h; rfl
  | a :: t, i + 1, x, h => by
    simp only [List.getElem?_cons_succ] at h
    show a :: t.set i x = a :: t
    rw [set_getElem?_eq t i x h]

/-- Swapping a position with itself is the identity. -/
theorem listSwap_self (l : List α) (i : Nat) : listSwap l i i = l := by
  unfold listSwap
  split
  next x y hx hy =>
    rw [hx] at hy
    injection hy with hxy
    subst hxy
    rw [List.set_set, set_getElem?_eq l i x hx]
  next => rfl

/-- Every iteration of the shuffle loop preserves the multiset of elements. -/
theorem shuffleLoop_perm (r : Nat → Nat) :
    ∀ (c : Nat) (l : List α), (shuffleLoop r c l).Perm l
  | 0, l => List.Perm.refl l
  | c + 1, l => (shuffleLoop_perm r c _).trans (listSwap_perm l c (r (c + 1)))

/-- Claim C6: for every draw family `r` and every input list (of any size
`N ≥ 0`), `shuffleArray` returns a permutation of its input — the same
multiset of `N` elements in some order. -/
theorem shuffleArray_perm (r : Nat → Nat) (l : List α) :
    (shuffleArray r l).Perm l :=
  shuffleLoop_perm r l.length l

/-- The code's loop run from `c = m + 1` agrees with the spec's loop run
from `i = m`, provided the final draw `r 1` is `0` (which every in-range
draw is): the code's extra iteration at `currentIndex = 1` swaps position
`0` with itself. -/
theorem shuffleLoop_eq_fisherYatesLoop (r : Nat → Nat) (h1 : r 1 = 0) :
    ∀ (m : Nat) (l : List α),
      shuffleLoop r (m + 1) l = fisherYatesLoop (fun i => r (i + 1)) m l
  | 0, l => by
    show shuffleLoop r 0 (listSwap l 0 (r 1)) = l
    rw [h1, listSwap_self]
    rfl
  | m + 1, l => by
    show shuffleLoop r (m + 1) (listSwap l (m + 1) (r (m + 2))) =
      fisherYatesLoop (fun i => r (i + 1)) m (listSwap l (m + 1) (r (m + 2)))
    rw [shuffleLoop_eq_fisherYatesLoop r h1 m]

/-- Claim C7: `shuffleArray` is the Fisher–Yates algorithm exactly as the
spec states it.  Forward direction: every run of the code (draws `r c < c`,
as produced by `Math.floor(Math.random() * c)`) equals the spec's shuffle
with the in-range draw family `i ↦ r (i + 1)`, `r (i + 1) ≤ i`; converse:
every run of the spec's shuffle (draws `j i ≤ i`) equals a run of the code
with in-range draws `c ↦ j (c - 1)`. -/
theorem shuffleArray_eq_fisherYatesSpec (l : List α) :
    (∀ r : Nat → Nat, (∀ c, 0 < c → r c < c) →
      shuffleArray r l = fisherYatesSpec (fun i => r (i + 1)) l ∧
        ∀ i, r (i + 1) ≤ i) ∧
    (∀ j : Nat → Nat, (∀ i, j i ≤ i) →
      fisherYatesSpec j l = shuffleArray (fun c => j (c - 1)) l ∧
        ∀ c, 0 < c → j (c - 1) < c) := by
  have key : ∀ r : Nat → Nat, (∀ c, 0 < c → r c < c) →
      shuffleArray r l = fisherYatesSpec (fun i => r (i + 1)) l := by
    intro r hr
    have h1 : r 1 = 0 := Nat.lt_one_iff.mp (hr 1 Nat.one_pos)
    unfold shuffleArray fisherYatesSpec
    cases hn : l.length with
    | zero => rfl
    | succ n => exact shuffleLoop_eq_fisherYatesLoop r h1 n l
  constructor
  · intro r hr
    exact ⟨key r hr, fun i => Nat.lt_succ_iff.mp (hr (i + 1) (Nat.succ_pos i))⟩
  · intro j hj
    have hr : ∀ c, 0 < c → (fun c => j (c - 1)) c < c := by
      intro c hc
      cases c with
      | zero => exact absurd hc (Nat.lt_irrefl 0)
      | succ m => exact Nat.lt_succ_of_le (hj m)
    refine ⟨?_, hr⟩
    have := key (fun c => j (c - 1)) hr
    exact this.symm

/-- Guard rejection: with the lock held or the exhaustion flag set, a call
returns immediately with the state unchanged. -/
theorem step_noop (f : String → Option PhotoDoc) (s : AppState)
    (h : s.loadingRef = true ∨ s.allLoaded = true) :
    fetchPhotoBatch f s = (s, Outcome.noop) := by
  have hn : tryAcquire s = none := by
    unfold tryAcquire
    rcases h with h | h <;> simp [h]
  simp [fetchPhotoBatch, hn]

/-- When the guard passes, the call runs the body on the locked state. -/
theorem step_proceed (f : String → Option PhotoDoc) (s : AppState)
    (hl : s.loadingRef = false) (ha : s.allLoaded = false) :
    fetchPhotoBatch f s = runBody f { s with loadingRef := true, loading := true } := by
  unfold fetchPhotoBatch tryAcquire
  rw [hl, ha]
  rfl

/-- Full case analysis of one `fetchPhotoBatch` call. -/
theorem fetchPhotoBatch_eq (f : String → Option PhotoDoc) (s : AppState) :
    fetchPhotoBatch f s =
      if s.loadingRef = true ∨ s.allLoaded = true then (s, Outcome.noop)
      else if windowOf s = [] ∧ s.shuffledPhotoIds ≠ [] then
        ({ s with allLoaded := true, loading := false, loadingRef := false },
          Outcome.exhausted)
      else
        match allFetch f (windowOf s) with
        | none => ({ s with loading := false, loadingRef := false }, Outcome.failed)
        | some docs =>
          ({ s with
              photos := s.photos ++
                (mkNewPhotos docs s.currentIndex).filter
                  (fun p => !((s.photos.map (fun q => q.id)).contains p.id)),
              currentIndex := s.currentIndex + BATCH_SIZE,
              loading := false, loadingRef := false }, Outcome.success) := by
  by_cases hg : s.loadingRef = true ∨ s.allLoaded = true
  · rw [if_pos hg]
    exact step_noop f s hg
  · rw [if_neg hg]
    have hl : s.loadingRef = false := by
      cases hh : s.loadingRef
      · rfl
      · exact absurd (Or.inl hh) hg
    have ha : s.allLoaded = false := by
      cases hh : s.allLoaded
      · rfl
      · exact absurd (Or.inr hh) hg
    rw [step_proceed f s hl ha]
    unfold runBody
    by_cases hw : windowOf s = [] ∧ s.shuffledPhotoIds ≠ []
    · rw [if_pos hw]
      have h0 : windowOf { s with loadingRef := true, loading := true } = [] := hw.1
      have hp : ({ s with loadingRef := true, loading := true } : AppState).shuffledPhotoIds.length > 0 :=
        List.length_pos.mpr hw.2
      rw [h0, if_pos ⟨rfl, hp⟩]
    · rw [if_neg hw]
      have hcond : ¬((windowOf { s with loadingRef := true, loading := true }).length = 0 ∧
          ({ s with loadingRef := true, loading := true } : AppState).shuffledPhotoIds.length > 0) := by
        rintro ⟨h1, h2⟩
        exact hw ⟨List.length_eq_zero.mp h1, List.length_pos.mp h2⟩
      rw [if_neg hcond]
      rfl

/-- No call changes the shuffled order. -/
theorem step_ids (f : String → Option PhotoDoc) (s : AppState) :
    (fetchPhotoBatch f s).1.shuffledPhotoIds = s.shuffledPhotoIds := by
  rw [fetchPhotoBatch_eq]
  split
  · rfl
  · split
    · rfl
    · split <;> rfl

/-- Claim C1: if the lock (`loadingRef`) is held or the exhaustion flag
(`allLoaded`) is set when `fetchPhotoBatch` is invoked, the call is a no-op
that returns the state unchanged; and since the guard check and the lock
acquisition (`tryAcquire`) form one synchronous step with no suspension
point between them, a second invocation issued while the first holds the
lock is a no-op, so two back-to-back calls produce exactly one in-flight
fetch fan-out. -/
theorem fetchPhotoBatch_single_flight (f g : String → Option PhotoDoc) (s s1 : AppState) :
    (s.loadingRef = true ∨ s.allLoaded = true → fetchPhotoBatch f s = (s, Outcome.noop)) ∧
    (tryAcquire s = some s1 →
      s1.loadingRef = true ∧ fetchPhotoBatch g s1 = (s1, Outcome.noop)) := by
  constructor
  · exact step_noop f s
  · intro h
    unfold tryAcquire at h
    by_cases hc : (s.loadingRef || s.allLoaded) = true
    · rw [if_pos hc] at h
      cases h
    · rw [if_neg hc] at h
      injection h with h
      subst h
      exact ⟨rfl, step_noop g _ (Or.inl rfl)⟩

/-- Witness for the single-flight theorem at concrete states: a locked
one-id session, and the state a successful acquisition produces. -/
theorem fetchPhotoBatch_single_flight_witness :
    fetchPhotoBatch (fun _ => none) { initState ["a"] with loadingRef := true } =
      ({ initState ["a"] with loadingRef := true }, Outcome.noop) ∧
    fetchPhotoBatch (fun _ => none)
        { initState ["a"] with loadingRef := true, loading := true } =
      ({ initState ["a"] with loadingRef := true, loading := true }, Outcome.noop) := by
  constructor
  · exact (fetchPhotoBatch_single_flight (fun _ => none) (fun _ => none)
      { initState ["a"] with loadingRef := true } (initState ["a"])).1 (Or.inl rfl)
  · exact ((fetchPhotoBatch_single_flight (fun _ => none) (fun _ => none)
      (initState ["a"]) { initState ["a"] with loadingRef := true, loading := true }).2 rfl).2

/-- Claim C4: when some per-record fetch of the window rejects, the failure
is caught inside the call: photos and cursor are unchanged, the exhaustion
flag is untouched, the finally block has released the lock and the loading
indicator, and a subsequent invocation computes the same window again. -/
theorem failed_batch_frame (f : String → Option PhotoDoc) (s s' : AppState)
    (h : fetchPhotoBatch f s = (s', Outcome.failed)) :
    s'.photos = s.photos ∧ s'.currentIndex = s.currentIndex ∧
    s'.allLoaded = s.allLoaded ∧ s'.loading = false ∧ s'.loadingRef = false ∧
    windowOf s' = windowOf s := by
  rw [fetchPhotoBatch_eq] at h
  split at h
  · injection h with h1 h2; cases h2
  · split at h
    · injection h with h1 h2; cases h2
    · split at h
      · injection h with h1 h2
        subst h1
        exact ⟨rfl, rfl, rfl, rfl, rfl, rfl⟩
      · injection h with h1 h2; cases h2

/-- Witness for the failed-batch frame theorem: a one-id session whose
single fetch rejects. -/
theorem failed_batch_frame_witness :
    (fetchPhotoBatch (fun _ => none) (initState ["b"])).1.photos = (initState ["b"]).photos ∧
    (fetchPhotoBatch (fun _ => none) (initState ["b"])).1.currentIndex = (initState ["b"]).currentIndex ∧
    (fetchPhotoBatch (fun _ => none) (initState ["b"])).1.allLoaded = (initState ["b"]).allLoaded ∧
    (fetchPhotoBatch (fun _ => none) (initState ["b"])).1.loading = false ∧
    (fetchPhotoBatch (fun _ => none) (initState ["b"])).1.loadingRef = false ∧
    windowOf (fetchPhotoBatch (fun _ => none) (initState ["b"])).1 = windowOf (initState ["b"]) :=
  failed_batch_frame (fun _ => none) (initState ["b"])
    (fetchPhotoBatch (fun _ => none) (initState ["b"])).1 rfl

/-- Claim C10: the exhaustion branch sets `allLoaded` and leaves everything
else unchanged — cursor, photos and the shuffled order keep their values,
and the finally block has still released the lock and the loading
indicator. -/
theorem exhaustion_frame (f : String → Option PhotoDoc) (s s' : AppState)
    (h : fetchPhotoBatch f s = (s', Outcome.exhausted)) :
    s' = { s with allLoaded := true, loading := false, loadingRef := false } := by
  rw [fetchPhotoBatch_eq] at h
  split at h
  · injection h with h1 h2; cases h2
  · split at h
    · injection h with h1 h2
      exact h1.symm
    · split at h
      · injection h with h1 h2; cases h2
      · injection h with h1 h2; cases h2

/-- Witness for the exhaustion frame theorem: a one-id session whose cursor
has already passed the end of the order. -/
theorem exhaustion_frame_witness :
    (fetchPhotoBatch (fun _ => none) { initState ["c"] with currentIndex := 12 }).1 =
      { { initState ["c"] with currentIndex := 12 } with
          allLoaded := true, loading := false, loadingRef := false } :=
  exhaustion_frame (fun _ => none) { initState ["c"] with currentIndex := 12 }
    (fetchPhotoBatch (fun _ => none) { initState ["c"] with currentIndex := 12 }).1 rfl

/-- With an empty shuffled order, an unlocked un-exhausted call skips the
exhaustion branch (whose guard needs a non-empty order), fetches the empty
window successfully, and only advances the cursor. -/
theorem step_empty (f : String → Option PhotoDoc) (c : Nat) :
    fetchPhotoBatch f { initState [] with currentIndex := c } =
      ({ initState [] with currentIndex := c + BATCH_SIZE }, Outcome.success) := by
  rw [fetchPhotoBatch_eq]
  rw [if_neg (by simp [initState])]
  rw [if_neg (by simp [initState])]
  have hw : windowOf { initState [] with currentIndex := c } = [] := by
    simp [windowOf, initState]
  rw [hw]
  rfl

/-- Iterating triggers over the empty order only accumulates cursor
advances. -/
theorem runBatches_empty : ∀ (fs : List (String → Option PhotoDoc)) (c : Nat),
    runBatches fs { initState [] with currentIndex := c } =
      { initState [] with currentIndex := c + BATCH_SIZE * fs.length }
  | [], _ => rfl
  | f :: fs, c => by
    show runBatches fs (fetchPhotoBatch f { initState [] with currentIndex := c }).1 =
      { initState [] with currentIndex := c + BATCH_SIZE * (f :: fs).length }
    rw [step_empty f c]
    show runBatches fs { initState [] with currentIndex := c + BATCH_SIZE } = _
    rw [runBatches_empty fs (c + BATCH_SIZE)]
    have harith : c + BATCH_SIZE + BATCH_SIZE * fs.length = c + BATCH_SIZE * (fs.length + 1) := by
      simp [BATCH_SIZE]
      ring
    rw [harith]
    rfl

/-- Claim C9: with an empty shuffled order (`N = 0`), a completed call
never sets the exhaustion flag (its guard requires a non-empty order) and
still advances the cursor by `BATCH_SIZE`: every trigger takes the success
path, so `n` triggers leave the loaded set empty and the flag unset while
the cursor grows to `BATCH_SIZE * n`, without bound. -/
theorem empty_order_cursor_unbounded (f : String → Option PhotoDoc)
    (fs : List (String → Option PhotoDoc)) :
    (fetchPhotoBatch f (initState [])).2 = Outcome.success ∧
    runBatches fs (initState []) =
      { initState [] with currentIndex := BATCH_SIZE * fs.length } := by
  constructor
  · exact congrArg Prod.snd (step_empty f 0)
  · have h := runBatches_empty fs 0
    rw [Nat.zero_add] at h
    exact h

/-- From a state with the exhaustion flag set, no sequence of triggers
changes anything. -/
theorem runBatches_frozen : ∀ (fs : List (String → Option PhotoDoc)) (s : AppState),
    s.allLoaded = true → runBatches fs s = s
  | [], _, _ => rfl
  | f :: fs, s, h => by
    show runBatches fs (fetchPhotoBatch f s).1 = s
    rw [step_noop f s (Or.inr h)]
    exact runBatches_frozen fs s h

/-- Claim C5: once `allLoaded` is true every call is a no-op (so the flag
never resets and no further fetch is issued, over any number of triggers),
and a call makes the flag true exactly when the state already had it or the
call proceeded past the free lock onto an empty window slice of a non-empty
shuffled order. -/
theorem allLoaded_terminal (f : String → Option PhotoDoc)
    (fs : List (String → Option PhotoDoc)) (s : AppState) :
    (s.allLoaded = true → fetchPhotoBatch f s = (s, Outcome.noop)) ∧
    (s.allLoaded = true → runBatches fs s = s) ∧
    ((fetchPhotoBatch f s).1.allLoaded = true ↔
      s.allLoaded = true ∨
        (s.loadingRef = false ∧ windowOf s = [] ∧ s.shuffledPhotoIds ≠ [])) := by
  refine ⟨fun h => step_noop f s (Or.inr h), fun h => runBatches_frozen fs s h, ?_⟩
  rw [fetchPhotoBatch_eq]
  by_cases hg : s.loadingRef = true ∨ s.allLoaded = true
  · rw [if_pos hg]
    constructor
    · exact fun h => Or.inl h
    · rintro (h | ⟨hlr, hw, hne⟩)
      · exact h
      · rcases hg with h | h
        · rw [hlr] at h
          exact Bool.noConfusion h
        · exact h
  · rw [if_neg hg]
    have hlr : s.loadingRef = false := by
      cases hh : s.loadingRef
      · rfl
      · exact absurd (Or.inl hh) hg
    have hal : s.allLoaded = false := by
      cases hh : s.allLoaded
      · rfl
      · exact absurd (Or.inr hh) hg
    by_cases hw : windowOf s = [] ∧ s.shuffledPhotoIds ≠ []
    · rw [if_pos hw]
      constructor
      · exact fun _ => Or.inr ⟨hlr, hw.1, hw.2⟩
      · exact fun _ => rfl
    · rw [if_neg hw]
      cases hd : allFetch f (windowOf s) with
      | none =>
        constructor
        · intro h
          have h' : s.allLoaded = true := h
          rw [hal] at h'
          exact Bool.noConfusion h'
        · rintro (h | ⟨h1, hw1, hne⟩)
          · rw [hal] at h
            exact Bool.noConfusion h
          · exact absurd ⟨hw1, hne⟩ hw
      | some docs =>
        constructor
        · intro h
          have h' : s.allLoaded = true := h
          rw [hal] at h'
          exact Bool.noConfusion h'
        · rintro (h | ⟨h1, hw1, hne⟩)
          · rw [hal] at h
            exact Bool.noConfusion h
          · exact absurd ⟨hw1, hne⟩ hw

/-- Witness for the exhaustion-terminal theorem: a one-id session with the
flag already set is left untouched by a call and by a run, and a call on it
reports the flag still true. -/
theorem allLoaded_terminal_witness :
    fetchPhotoBatch (fun _ => none) { initState ["a"] with allLoaded := true } =
      ({ initState ["a"] with allLoaded := true }, Outcome.noop) ∧
    runBatches [fun _ => none] { initState ["a"] with allLoaded := true } =
      { initState ["a"] with allLoaded := true } ∧
    (fetchPhotoBatch (fun _ => none) { initState ["a"] with allLoaded := true }).1.allLoaded = true := by
  have h := allLoaded_terminal (fun _ => none) [fun _ => none]
    { initState ["a"] with allLoaded := true }
  exact ⟨h.1 rfl, h.2.1 rfl, h.2.2.mpr (Or.inl rfl)⟩

/-- One call advances the cursor by `BATCH_SIZE` when it takes the success
path and leaves it unchanged otherwise. -/
theorem step_cursor (f : String → Option PhotoDoc) (s : AppState) :
    (fetchPhotoBatch f s).1.currentIndex =
      s.currentIndex +
        (if (fetchPhotoBatch f s).2 = Outcome.success then BATCH_SIZE else 0) := by
  rw [fetchPhotoBatch_eq]
  split
  · simp
  · split
    · simp
    · split
      · simp
      · simp

/-- Over a run, the cursor accumulates `BATCH_SIZE` per success. -/
theorem runBatches_cursor : ∀ (fs : List (String → Option PhotoDoc)) (s : AppState),
    (runBatches fs s).currentIndex = s.currentIndex + BATCH_SIZE * successCount fs s
  | [], s => by simp [runBatches, successCount]
  | f :: fs, s => by
    show (runBatches fs (fetchPhotoBatch f s).1).currentIndex = _
    rw [runBatches_cursor fs (fetchPhotoBatch f s).1, step_cursor f s]
    show _ = s.currentIndex + BATCH_SIZE *
      ((if (fetchPhotoBatch f s).2 = Outcome.success then 1 else 0) +
        successCount fs (fetchPhotoBatch f s).1)
    by_cases h : (fetchPhotoBatch f s).2 = Outcome.success
    · rw [if_pos h, if_pos h]
      ring
    · rw [if_neg h, if_neg h]
      ring

/-- Over a non-empty order, one call keeps the cursor a multiple of
`BATCH_SIZE` and below the cap. -/
theorem step_cursor_cap (f : String → Option PhotoDoc) (s : AppState)
    (hne : s.shuffledPhotoIds ≠ [])
    (hdvd : s.currentIndex % BATCH_SIZE = 0)
    (hle : s.currentIndex ≤ cursorCap s.shuffledPhotoIds.length) :
    (fetchPhotoBatch f s).1.currentIndex % BATCH_SIZE = 0 ∧
      (fetchPhotoBatch f s).1.currentIndex ≤ cursorCap s.shuffledPhotoIds.length := by
  rw [fetchPhotoBatch_eq]
  split
  · exact ⟨hdvd, hle⟩
  · split
    · exact ⟨hdvd, hle⟩
    · next hw =>
      split
      · exact ⟨hdvd, hle⟩
      · have hwne : windowOf s ≠ [] := fun h0 => hw ⟨h0, hne⟩
        have hlt : s.currentIndex < s.shuffledPhotoIds.length := by
          by_contra hge
          push_neg at hge
          apply hwne
          unfold windowOf
          rw [List.drop_eq_nil_of_le hge]
          rfl
        show (s.currentIndex + BATCH_SIZE) % BATCH_SIZE = 0 ∧
          s.currentIndex + BATCH_SIZE ≤ cursorCap s.shuffledPhotoIds.length
        simp only [cursorCap, BATCH_SIZE] at hdvd hle ⊢
        omega

/-- Over a non-empty order, the cap is preserved by any run. -/
theorem runBatches_cursor_cap : ∀ (fs : List (String → Option PhotoDoc)) (s : AppState),
    s.shuffledPhotoIds ≠ [] → s.currentIndex % BATCH_SIZE = 0 →
    s.currentIndex ≤ cursorCap s.shuffledPhotoIds.length →
    (runBatches fs s).currentIndex ≤ cursorCap s.shuffledPhotoIds.length
  | [], _, _, _, hle => hle
  | f :: fs, s, hne, hdvd, hle => by
    have hstep := step_cursor_cap f s hne hdvd hle
    have hids := step_ids f s
    show (runBatches fs (fetchPhotoBatch f s).1).currentIndex ≤ _
    have hrec := runBatches_cursor_cap fs (fetchPhotoBatch f s).1
      (by rw [hids]; exact hne) hstep.1 (by rw [hids]; exact hstep.2)
    rw [hids] at hrec
    exact hrec

/-- Claim C3, amended to require a non-empty identifier order (for `N = 0`
the stated cap fails; see the counterexample theorem): starting a session
on `ids`, after any sequence of calls the cursor equals `BATCH_SIZE` times
the number of successful batch loads, and never exceeds
`ceil(N / BATCH_SIZE) * BATCH_SIZE`. -/
theorem loadCursor_successes_and_cap (fs : List (String → Option PhotoDoc))
    (ids : List String) (hne : ids ≠ []) :
    (runBatches fs (initState ids)).currentIndex =
      BATCH_SIZE * successCount fs (initState ids) ∧
    (runBatches fs (initState ids)).currentIndex ≤ cursorCap ids.length := by
  constructor
  · exact (runBatches_cursor fs (initState ids)).trans (by simp [initState])
  · exact runBatches_cursor_cap fs (initState ids) hne rfl (Nat.zero_le _)

/-- Witness for the amended cursor theorem: one successful batch over a
one-id order reaches cursor 12, within the cap `ceil(1/12) * 12 = 12`. -/
theorem loadCursor_successes_and_cap_witness :
    (runBatches [fun _ => some { url := "u", alt_description := "v" }] (initState ["d"])).currentIndex =
      BATCH_SIZE * successCount [fun _ => some { url := "u", alt_description := "v" }] (initState ["d"]) ∧
    (runBatches [fun _ => some { url := "u", alt_description := "v" }] (initState ["d"])).currentIndex ≤
      cursorCap (List.length ["d"]) :=
  loadCursor_successes_and_cap [fun _ => some { url := "u", alt_description := "v" }] ["d"]
    (by decide)

/-- Claim C3 as stated is false at `N = 0`: over the empty order a single
trigger still takes the success path on the empty window and advances the
cursor to `BATCH_SIZE = 12`, exceeding the stated cap
`ceil(0 / BATCH_SIZE) * BATCH_SIZE = 0`. -/
theorem loadCursor_cap_counterexample :
    (runBatches [fun _ => some { url := "u", alt_description := "w" }] (initState [])).currentIndex =
      BATCH_SIZE ∧
    cursorCap (List.length ([] : List String)) = 0 ∧
    ¬((runBatches [fun _ => some { url := "u", alt_description := "w" }] (initState [])).currentIndex ≤
        cursorCap (List.length ([] : List String))) := by
  refine ⟨rfl, rfl, ?_⟩
  decide

/-- A joined fan-out yields exactly the requested ids, in request order. -/
theorem allFetch_ids (f : String → Option PhotoDoc) :
    ∀ (ids : List String) (docs : List (String × PhotoDoc)),
      allFetch f ids = some docs → docs.map Prod.fst = ids
  | [], docs, h => by
    unfold allFetch at h
    injection h with h
    subst h
    rfl
  | i :: ids, docs, h => by
    unfold allFetch at h
    cases hf : f i with
    | none => rw [hf] at h; exact Option.noConfusion h
    | some d =>
      rw [hf] at h
      cases hr : allFetch f ids with
      | none => rw [hr] at h; exact Option.noConfusion h
      | some rest =>
        rw [hr] at h
        injection h with h
        subst h
        show i :: rest.map Prod.fst = i :: ids
        rw [allFetch_ids f ids rest hr]

/-- The ids of the tagged records are the ids of the fetched documents. -/
theorem mkNewPhotos_ids (docs : List (String × PhotoDoc)) (c : Nat) :
    (mkNewPhotos docs c).map (fun p => p.id) = docs.map Prod.fst := by
  unfold mkNewPhotos
  rw [List.map_map]
  show docs.enum.map (Prod.fst ∘ Prod.snd) = docs.map Prod.fst
  rw [← List.map_map, List.enum_eq_enumFrom, List.enumFrom_map_snd]

/-- A slice of a duplicate-free order is duplicate-free. -/
theorem windowOf_nodup (s : AppState) (h : s.shuffledPhotoIds.Nodup) :
    (windowOf s).Nodup :=
  List.Nodup.sublist ((List.take_sublist _ _).trans (List.drop_sublist _ _)) h

/-- One call preserves duplicate-freedom of the loaded ids, over a
duplicate-free order. -/
theorem step_photos_ids_nodup (f : String → Option PhotoDoc) (s : AppState)
    (hids : s.shuffledPhotoIds.Nodup)
    (hp : (s.photos.map (fun p => p.id)).Nodup) :
    ((fetchPhotoBatch f s).1.photos.map (fun p => p.id)).Nodup := by
  rw [fetchPhotoBatch_eq]
  split
  · exact hp
  · split
    · exact hp
    · next hw =>
      split
      · exact hp
      · next docs hd =>
        show ((s.photos ++ (mkNewPhotos docs s.currentIndex).filter
            (fun p => !((s.photos.map (fun q => q.id)).contains p.id))).map
              (fun p => p.id)).Nodup
        rw [List.map_append, List.nodup_append]
        refine ⟨hp, ?_, ?_⟩
        · have hsub : List.Sublist
              (((mkNewPhotos docs s.currentIndex).filter
                (fun p => !((s.photos.map (fun q => q.id)).contains p.id))).map
                  (fun p => p.id))
              ((mkNewPhotos docs s.currentIndex).map (fun p => p.id)) :=
            (List.filter_sublist _).map _
          have hwnodup : ((mkNewPhotos docs s.currentIndex).map (fun p => p.id)).Nodup := by
            rw [mkNewPhotos_ids, allFetch_ids f (windowOf s) docs hd]
            exact windowOf_nodup s hids
          exact List.Nodup.sublist hsub hwnodup
        · intro a ha hb
          rcases List.mem_map.mp hb with ⟨p, hpmem, rfl⟩
          rcases List.mem_filter.mp hpmem with ⟨-, hpred⟩
          rw [Bool.not_eq_true'] at hpred
          have hc : (s.photos.map (fun q => q.id)).contains p.id = true :=
            List.elem_iff.mpr ha
          exact Bool.noConfusion (hc.symm.trans hpred)

/-- Claim C2: over a duplicate-free shuffled order, no sequence of batch
loads (successful, failed or exhausted) ever makes the accumulated photo
list contain two records with the same id. -/
theorem loadedSet_ids_nodup :
    ∀ (fs : List (String → Option PhotoDoc)) (s : AppState),
      s.shuffledPhotoIds.Nodup → (s.photos.map (fun p => p.id)).Nodup →
      ((runBatches fs s).photos.map (fun p => p.id)).Nodup
  | [], _, _, hp => hp
  | f :: fs, s, hids, hp =>
    loadedSet_ids_nodup fs (fetchPhotoBatch f s).1
      (by rw [step_ids]; exact hids)
      (step_photos_ids_nodup f s hids hp)

/-- Witness for the uniqueness theorem: a fresh two-id session and one
successful batch. -/
theorem loadedSet_ids_nodup_witness :
    ((runBatches [fun _ => some { url := "x", alt_description := "y" }]
        (initState ["a", "b"])).photos.map (fun p => p.id)).Nodup :=
  loadedSet_ids_nodup [fun _ => some { url := "x", alt_description := "y" }]
    (initState ["a", "b"]) (by decide) (by decide)

/-- Claim C8: in a successful batch each fetched record is tagged with
`index = currentIndex + position-in-window`: in `mkNewPhotos` the record at
position `k` carries index `cursor + k` and the id of the `k`-th fetched
document (part 1), and position `k` of the window is position
`currentIndex + k` of the global shuffled order (part 2), so the tag is the
record's position in the global shuffled order. -/
theorem batch_index_tagging :
    (∀ (docs : List (String × PhotoDoc)) (c k : Nat), k < docs.length →
      ∃ p : Photo, (mkNewPhotos docs c)[k]? = some p ∧
        p.index = c + k ∧ docs[k]?.map Prod.fst = some p.id) ∧
    (∀ (s : AppState) (k : Nat), k < BATCH_SIZE →
      (windowOf s)[k]? = s.shuffledPhotoIds[s.currentIndex + k]?) := by
  constructor
  · intro docs c k hk
    refine ⟨{ id := docs[k].1, url := docs[k].2.url,
              alt_description := docs[k].2.alt_description, index := c + (0 + k) }, ?_, ?_, ?_⟩
    · unfold mkNewPhotos
      rw [List.getElem?_map, List.enum_eq_enumFrom, List.getElem?_enumFrom,
        List.getElem?_eq_getElem hk]
      rfl
    · show c + (0 + k) = c + k
      rw [Nat.zero_add]
    · rw [List.getElem?_eq_getElem hk]
      rfl
  · intro s k hk
    unfold windowOf
    rw [List.getElem?_take_of_lt hk, List.getElem?_drop]

/-- Witness for the index-tagging theorem: a single fetched document at
cursor 5, and the first window slot of a fresh two-id session. -/
theorem batch_index_tagging_witness :
    (∃ p : Photo, (mkNewPhotos [("a", { url := "u", alt_description := "z" })] 5)[0]? = some p ∧
      p.index = 5 + 0 ∧
      ([("a", { url := "u", alt_description := "z" })] :
        List (String × PhotoDoc))[0]?.map Prod.fst = some p.id) ∧
    (windowOf (initState ["a", "b"]))[0]? =
      (initState ["a", "b"]).shuffledPhotoIds[(initState ["a", "b"]).currentIndex + 0]? := by
  constructor
  · exact batch_index_tagging.1 [("a", { url := "u", alt_description := "z" })] 5 0 (by decide)
  · exact batch_index_tagging.2 (initState ["a", "b"]) 0 (by decide)

/-- Witness for the Fisher–Yates refinement theorem: the all-zero draw
family on a three-element list. -/
theorem shuffleArray_eq_fisherYatesSpec_witness :
    shuffleArray (fun _ => 0) [1, 2, 3] =
      fisherYatesSpec (fun i => (fun _ => 0 : Nat → Nat) (i + 1)) [1, 2, 3] ∧
    ∀ i, (fun _ => 0 : Nat → Nat) (i + 1) ≤ i :=
  (shuffleArray_eq_fisherYatesSpec [1, 2, 3]).1 (fun _ => 0) (fun _ hc => hc)

end PhotoBlog
